import Mathlib

set_option linter.unusedVariables false

/-! Formal model of the DNS-Bench tool (src/main.py): the benchmarking routine
`benchmark_dns_servers` and the table renderer `display_results`.

DNS resolution is an external collaborator; its outcomes are supplied by an
environment: for each pass over the server list, an optional reverse-lookup
name and, for each forward-query attempt, an optional elapsed time in seconds
(`none` models a raised exception, which the code catches per attempt).
Python floats are idealised as a linear ordered field: the statistics claims
instantiate it with the real numbers and `Real.sqrt` (modelling
`variance ** 0.5`), the rendering claims with the rationals, where decimal
formatting is computable.  Python's `range(num_queries)` iterates
`max 0 num_queries` times, hence `Int.toNat`.  The Python dict of results is
an association list with overwrite-in-place insertion, matching insertion
order and last-write-wins semantics of dict assignment. -/

/-- Outcome of one benchmarking pass over a single server: the reverse-lookup
result (src/main.py line 40) and the outcome of each forward-query attempt
(line 50); `none` models an exception, `some t` a success taking `t` seconds. -/
structure PassOutcome (α : Type) where
  reverse : Option String
  query : Nat → Option α

/-- One per-server result dictionary.  Fields are optional because the code
stores only `name` and `error` when no sample was collected
(src/main.py lines 66-77). -/
structure BenchResult (α : Type) where
  times : Option (List α) := none
  mean : Option α := none
  stdev : Option α := none
  name : Option String := none
  error : Option Bool := none
  deriving DecidableEq

/-- The forward-query loop (src/main.py lines 47-58).  Arguments after the
query oracle: remaining iterations, index of the next attempt, accumulated
`times`, current `failure_count`.  Returns the final `times`, the final
`failure_count`, and the number of attempts issued.  On success the elapsed
seconds are converted to milliseconds and appended (line 52); on failure the
counter is incremented (line 55); after every attempt the loop breaks if the
counter exceeds 2 (lines 56-58). -/
def queryLoop {α : Type} [LinearOrderedField α] (q : Nat → Option α) :
    Nat → Nat → List α → Nat → List α × Nat × Nat
  | 0, i, times, fc => (times, fc, i)
  | n + 1, i, times, fc =>
    match q i with
    | some elapsed =>
      let times2 := times ++ [elapsed * 1000]
      if fc > 2 then (times2, fc, i + 1) else queryLoop q n (i + 1) times2 fc
    | none =>
      if fc + 1 > 2 then (times, fc + 1, i + 1)
      else queryLoop q n (i + 1) times (fc + 1)

/-- Build the per-server result dictionary from the resolved name and the
collected times (src/main.py lines 60-77): with at least one sample, store the
times, their arithmetic mean `sum / len`, and `sqrtFn` of the population
variance `(sum of (x - mean) ^ 2) / len`; otherwise store only the name and
the error flag. -/
def benchResultOf {α : Type} [LinearOrderedField α] (sqrtFn : α → α)
    (name : String) (times : List α) : BenchResult α :=
  if !times.isEmpty then
    let mean := times.sum / (times.length : α)
    let variance := (times.map fun x => (x - mean) ^ 2).sum / (times.length : α)
    let stdev := sqrtFn variance
    { times := some times, mean := some mean, stdev := some stdev,
      name := some name, error := some false }
  else
    { name := some name, error := some true }

/-- One full benchmarking pass for a single server (src/main.py lines 33-77):
the reverse lookup yields the display name and the initial failure count
(`"Unknown"` and 1 on failure, lines 38-45), then the query loop runs for
`range num_queries` iterations starting at failure count `rev.2`. -/
def benchEntry {α : Type} [LinearOrderedField α] (sqrtFn : α → α)
    (num_queries : Int) (p : PassOutcome α) : BenchResult α :=
  let rev := match p.reverse with
    | some n => (n, 0)
    | none => ("Unknown", 1)
  benchResultOf sqrtFn rev.1 (queryLoop p.query num_queries.toNat 0 [] rev.2).1

/-- Python dict assignment `m[k] = v`: overwrite in place if the key is
present, else append the new binding. -/
def dictSet {β : Type} (m : List (String × β)) (k : String) (v : β) :
    List (String × β) :=
  match m with
  | [] => [(k, v)]
  | (k1, v1) :: rest =>
    if k1 = k then (k, v) :: rest else (k1, v1) :: dictSet rest k v

/-- Python dict lookup `m.get(k)`. -/
def dictGet {β : Type} (m : List (String × β)) (k : String) : Option β :=
  match m with
  | [] => none
  | (k1, v1) :: rest => if k1 = k then some v1 else dictGet rest k

/-- The main loop of `benchmark_dns_servers` (src/main.py lines 32-77): one
pass per server, in order; pass `i` consumes the environment's outcome
`env i` and the result dict is updated with `results[server] = ...`. -/
def benchLoop {α : Type} [LinearOrderedField α] (sqrtFn : α → α)
    (env : Nat → PassOutcome α) (num_queries : Int) :
    Nat → List String → List (String × BenchResult α) →
      List (String × BenchResult α)
  | _, [], acc => acc
  | i, s :: rest, acc =>
    benchLoop sqrtFn env num_queries (i + 1) rest
      (dictSet acc s (benchEntry sqrtFn num_queries (env i)))

/-- `benchmark_dns_servers(servers, domain, num_queries=8)`
(src/main.py lines 12-79).  The domain is passed through to the resolver
collaborator, whose behaviour is captured by `env`. -/
def benchmark_dns_servers {α : Type} [LinearOrderedField α] (sqrtFn : α → α)
    (env : Nat → PassOutcome α) (servers : List String) (domain : String)
    (num_queries : Int := 8) : List (String × BenchResult α) :=
  benchLoop sqrtFn env num_queries 0 servers []

/-- Index of the last occurrence of `s` in a list, if any. -/
def lastOcc (s : String) : List String → Option Nat
  | [] => none
  | a :: rest =>
    match lastOcc s rest with
    | some j => some (j + 1)
    | none => if a = s then some 0 else none

/-- Left-pad a string with spaces to the given width. -/
def padLeft (w : Nat) (s : String) : String :=
  if s.length < w then String.mk (List.replicate (w - s.length) ' ') ++ s
  else s

/-- Left-pad a string with zeros to the given width. -/
def padZeros (w : Nat) (s : String) : String :=
  if s.length < w then String.mk (List.replicate (w - s.length) '0') ++ s
  else s

/-- Round to the nearest integer, ties to even, as Python float formatting
does on the exact value. -/
def roundHalfEven (x : ℚ) : ℤ :=
  let f := ⌊x⌋
  let r := x - (f : ℚ)
  if r < 1 / 2 then f
  else if 1 / 2 < r then f + 1
  else if f % 2 = 0 then f else f + 1

/-- Python `f"{x: >3.0f}"` (src/main.py line 125): no decimal places,
right-aligned to width 3 with space fill. -/
def fmt0 (x : ℚ) : String :=
  padLeft 3 (toString (roundHalfEven x))

/-- Python `f"{x:.1f}"` (src/main.py line 126): exactly one decimal place. -/
def fmt1 (x : ℚ) : String :=
  let n := roundHalfEven (x * 10)
  let s := if n < 0 then "-" else ""
  s ++ toString (n.natAbs / 10) ++ "." ++ toString (n.natAbs % 10)

/-- The number of decimal digits Python `str` shows for a float whose value
is a short terminating decimal: the least `n` with `x * 10 ^ n` integral
(capped at 17, the double shortest-repr bound). -/
def decimalsFor (x : ℚ) : Nat :=
  match (List.range 18).find? (fun n => (x * 10 ^ n).den = 1) with
  | some n => n
  | none => 17

/-- Python `str(float)`, for values with terminating decimal expansions:
at least one digit after the point, e.g. `str(0.0) = "0.0"`. -/
def pyFloatStr (x : ℚ) : String :=
  let d := max 1 (decimalsFor x)
  let n := roundHalfEven (x * 10 ^ d)
  let s := if n < 0 then "-" else ""
  s ++ toString (n.natAbs / 10 ^ d) ++ "." ++ padZeros d (toString (n.natAbs % 10 ^ d))

/-- `red_string` (src/main.py lines 82-84): wrap the rendered value in the
rich error markup. -/
def red_string (s : String) : String :=
  "[red]" ++ s ++ "[/red]"

/-- One table row of `display_results` (src/main.py lines 108-126): read each
dict field with its default, then either the all-red error row with the
literal marker in the times column, or the formatted row. -/
def renderRow (server : String) (data : BenchResult ℚ) : List String :=
  let name := data.name.getD "Unknown"
  let times := data.times.getD []
  let mean := data.mean.getD 0
  let stddev := data.stdev.getD 0
  let error := data.error.getD false
  if times.isEmpty || error then
    [red_string server, red_string name, red_string "Error on query attempt",
      red_string (pyFloatStr mean), red_string (pyFloatStr stddev)]
  else
    [server, name, String.intercalate "," (times.map fmt0),
      fmt1 mean, fmt1 stddev]

/-- `display_results` (src/main.py lines 87-129), modelled as the list of
data rows added to the table, one per dict entry, in iteration order. -/
def display_results (results : List (String × BenchResult ℚ)) :
    List (List String) :=
  results.map fun p => renderRow p.1 p.2

/-- Identity stand-in for the square-root collaborator at rational instants
where no statistics claim is at stake. -/
def sqrtQ : ℚ → ℚ := fun x => x

/-- Demo pass: reverse lookup succeeds, every query takes one second. -/
def demoPassOk : PassOutcome ℚ := ⟨some "dns.google", fun _ => some 1⟩

/-- Demo pass: reverse lookup and every query fail. -/
def demoPassFail : PassOutcome ℚ := ⟨none, fun _ => none⟩

/-- Demo pass: reverse lookup fails, every query succeeds. -/
def demoPassRevFail : PassOutcome ℚ := ⟨none, fun _ => some 1⟩

/-- Demo environment in which every pass fully succeeds. -/
def demoEnvOk : Nat → PassOutcome ℚ := fun _ => demoPassOk

/-- Demo environment in which every pass fully fails. -/
def demoEnvFail : Nat → PassOutcome ℚ := fun _ => demoPassFail

/-- Real-valued demo pass: reverse lookup succeeds, queries take one second. -/
def demoPassOkR : PassOutcome ℝ := ⟨some "dns.google", fun _ => some 1⟩

/-- Real-valued demo environment in which every pass fully succeeds. -/
def demoEnvOkR : Nat → PassOutcome ℝ := fun _ => demoPassOkR

/-- The result entry produced by one successful one-query pass over the
reals. -/
noncomputable def demoEntryR : BenchResult ℝ :=
  benchResultOf Real.sqrt "dns.google" [(1 : ℝ) * 1000]

/-- Full characterisation of one run of the query loop started below the
abort threshold: the collected samples extend the accumulator, the attempt
index counts one attempt per success or counted failure, the counter never
passes 3, at most `n` attempts happen, and without an abort all `n` attempts
happen. -/
theorem queryLoop_go {α : Type} [LinearOrderedField α] (q : Nat → Option α) :
    ∀ (n i : Nat) (ts : List α) (fc : Nat), fc ≤ 2 →
      ∃ ts2 fc2,
        (queryLoop q n i ts fc).1 = ts ++ ts2 ∧
        (queryLoop q n i ts fc).2.1 = fc + fc2 ∧
        (queryLoop q n i ts fc).2.2 = i + ts2.length + fc2 ∧
        fc + fc2 ≤ 3 ∧ ts2.length + fc2 ≤ n ∧
        (fc + fc2 ≤ 2 → ts2.length + fc2 = n) := by
  intro n
  induction n with
  | zero =>
    intro i ts fc hfc
    exact ⟨[], 0, by simp [queryLoop], by simp [queryLoop], by simp [queryLoop],
      by omega, by simp, by simp⟩
  | succ n ih =>
    intro i ts fc hfc
    cases hq : q i with
    | some e =>
      have hlt : ¬ fc > 2 := by omega
      obtain ⟨ts2, fc2, h1, h2, h3, h4, h5, h6⟩ := ih (i + 1) (ts ++ [e * 1000]) fc hfc
      refine ⟨e * 1000 :: ts2, fc2, ?_, ?_, ?_, h4, ?_, ?_⟩
      · simp only [queryLoop, hq, if_neg hlt]
        rw [h1]
        simp
      · simp only [queryLoop, hq, if_neg hlt]
        exact h2
      · simp only [queryLoop, hq, if_neg hlt]
        rw [h3]
        simp only [List.length_cons]
        omega
      · simp only [List.length_cons]
        omega
      · intro h
        have := h6 h
        simp only [List.length_cons]
        omega
    | none =>
      by_cases habort : fc + 1 > 2
      · refine ⟨[], 1, ?_, ?_, ?_, by omega, by simp, by intro h; omega⟩
        · simp [queryLoop, hq, if_pos habort]
        · simp [queryLoop, hq, if_pos habort]
        · simp [queryLoop, hq, if_pos habort]
      · obtain ⟨ts2, fc2, h1, h2, h3, h4, h5, h6⟩ := ih (i + 1) ts (fc + 1) (by omega)
        refine ⟨ts2, fc2 + 1, ?_, ?_, ?_, by omega, by omega, ?_⟩
        · simp only [queryLoop, hq, if_neg habort]
          exact h1
        · simp only [queryLoop, hq, if_neg habort]
          omega
        · simp only [queryLoop, hq, if_neg habort]
          omega
        · intro h
          have := h6 (by omega)
          omega

/-- Once the loop has aborted, a larger query budget changes nothing: the
run is determined at the abort point. -/
theorem queryLoop_stable {α : Type} [LinearOrderedField α] (q : Nat → Option α) :
    ∀ (n m i : Nat) (ts : List α) (fc : Nat), fc ≤ 2 → n ≤ m →
      2 < (queryLoop q n i ts fc).2.1 →
      queryLoop q m i ts fc = queryLoop q n i ts fc := by
  intro n
  induction n with
  | zero =>
    intro m i ts fc hfc hnm habort
    simp [queryLoop] at habort
    omega
  | succ n ih =>
    intro m i ts fc hfc hnm habort
    obtain ⟨m1, rfl⟩ : ∃ m1, m = m1 + 1 := ⟨m - 1, by omega⟩
    cases hq : q i with
    | some e =>
      have hlt : ¬ fc > 2 := by omega
      simp only [queryLoop, hq, if_neg hlt] at habort ⊢
      exact ih m1 (i + 1) (ts ++ [e * 1000]) fc hfc (by omega) habort
    | none =>
      by_cases hab : fc + 1 > 2
      · simp only [queryLoop, hq, if_pos hab]
      · simp only [queryLoop, hq, if_neg hab] at habort ⊢
        exact ih m1 (i + 1) ts (fc + 1) (by omega) (by omega) habort

/-- When every attempt succeeds and the loop starts below the abort
threshold, the failure counter is unchanged and one sample is collected per
iteration. -/
theorem queryLoop_allSome {α : Type} [LinearOrderedField α] (q : Nat → Option α)
    (hq : ∀ j, (q j).isSome) :
    ∀ (n i : Nat) (ts : List α) (fc : Nat), fc ≤ 2 →
      (queryLoop q n i ts fc).2.1 = fc ∧
      (queryLoop q n i ts fc).1.length = ts.length + n := by
  intro n
  induction n with
  | zero => intro i ts fc hfc; simp [queryLoop]
  | succ n ih =>
    intro i ts fc hfc
    obtain ⟨e, he⟩ := Option.isSome_iff_exists.mp (hq i)
    have hlt : ¬ fc > 2 := by omega
    simp only [queryLoop, he, if_neg hlt]
    obtain ⟨h1, h2⟩ := ih (i + 1) (ts ++ [e * 1000]) fc hfc
    refine ⟨h1, ?_⟩
    simp at h2 ⊢
    omega

/-- Looking a key up after a dict assignment. -/
theorem dictGet_dictSet {β : Type} (m : List (String × β)) (k s : String) (v : β) :
    dictGet (dictSet m k v) s = if k = s then some v else dictGet m s := by
  induction m with
  | nil => simp [dictSet, dictGet]
  | cons p rest ih =>
    obtain ⟨k1, v1⟩ := p
    by_cases h1 : k1 = k
    · subst h1
      by_cases h2 : k1 = s <;> simp [dictSet, dictGet, h2]
    · by_cases h2 : k1 = s
      · subst h2
        have h3 : ¬ k = k1 := fun h => h1 h.symm
        simp [dictSet, dictGet, h1, h3]
      · simp [dictSet, dictGet, h1, h2, ih]

/-- Keys after a dict assignment: unchanged when the key was present,
appended otherwise. -/
theorem keys_dictSet {β : Type} (m : List (String × β)) (k : String) (v : β) :
    (dictSet m k v).map Prod.fst =
      if k ∈ m.map Prod.fst then m.map Prod.fst else m.map Prod.fst ++ [k] := by
  induction m with
  | nil => simp [dictSet]
  | cons p rest ih =>
    obtain ⟨k1, v1⟩ := p
    by_cases h1 : k1 = k
    · subst h1
      simp [dictSet]
    · by_cases h2 : k ∈ rest.map Prod.fst <;>
        simp [dictSet, h1, ih, h2, Ne.symm h1]

/-- Key membership after a dict assignment. -/
theorem mem_keys_dictSet {β : Type} (m : List (String × β)) (k s : String) (v : β) :
    s ∈ (dictSet m k v).map Prod.fst ↔ s ∈ m.map Prod.fst ∨ s = k := by
  rw [keys_dictSet]
  by_cases h : k ∈ m.map Prod.fst
  · rw [if_pos h]
    constructor
    · exact Or.inl
    · rintro (hs | rfl)
      · exact hs
      · exact h
  · rw [if_neg h]
    simp [List.mem_append]

/-- Dict assignment preserves distinctness of the keys. -/
theorem nodup_keys_dictSet {β : Type} (m : List (String × β)) (k : String) (v : β)
    (h : (m.map Prod.fst).Nodup) : ((dictSet m k v).map Prod.fst).Nodup := by
  rw [keys_dictSet]
  by_cases hk : k ∈ m.map Prod.fst
  · rwa [if_pos hk]
  · rw [if_neg hk]
    exact List.Nodup.append h (List.nodup_singleton k)
      (fun a ha hb => hk ((List.mem_singleton.mp hb) ▸ ha))

/-- Every binding after a dict assignment is an old binding or the new one. -/
theorem mem_dictSet {β : Type} {k : String} {v : β} {p : String × β} :
    ∀ (m : List (String × β)), p ∈ dictSet m k v → p ∈ m ∨ p = (k, v) := by
  intro m
  induction m with
  | nil =>
    intro h
    simp [dictSet] at h
    exact Or.inr h
  | cons q rest ih =>
    obtain ⟨k1, v1⟩ := q
    intro h
    by_cases h1 : k1 = k
    · subst h1
      simp [dictSet] at h
      rcases h with rfl | hm
      · exact Or.inr rfl
      · exact Or.inl (List.mem_cons_of_mem _ hm)
    · simp only [dictSet, if_neg h1, List.mem_cons] at h
      rcases h with rfl | hm
      · exact Or.inl (List.mem_cons_self _ _)
      · rcases ih hm with h2 | h2
        · exact Or.inl (List.mem_cons_of_mem _ h2)
        · exact Or.inr h2

/-- Lookup in the dict built by the main loop: the entry of `s` comes from
the pass over the last occurrence of `s` in the server list. -/
theorem dictGet_benchLoop {α : Type} [LinearOrderedField α] (sqrtFn : α → α)
    (env : Nat → PassOutcome α) (nq : Int) :
    ∀ (servers : List String) (i : Nat) (acc : List (String × BenchResult α))
      (s : String),
      dictGet (benchLoop sqrtFn env nq i servers acc) s =
        match lastOcc s servers with
        | some j => some (benchEntry sqrtFn nq (env (i + j)))
        | none => dictGet acc s := by
  intro servers
  induction servers with
  | nil => intro i acc s; simp [benchLoop, lastOcc]
  | cons a rest ih =>
    intro i acc s
    simp only [benchLoop]
    rw [ih]
    cases hl : lastOcc s rest with
    | some j =>
      simp only [lastOcc, hl]
      have h2 : i + 1 + j = i + (j + 1) := by omega
      rw [h2]
    | none =>
      simp only [lastOcc, hl]
      rw [dictGet_dictSet]
      by_cases ha : a = s
      · simp [ha]
      · simp [ha]

/-- Every binding produced by the main loop is an inherited one or the
entry of some pass over the servers processed. -/
theorem mem_benchLoop {α : Type} [LinearOrderedField α] (sqrtFn : α → α)
    (env : Nat → PassOutcome α) (nq : Int) :
    ∀ (servers : List String) (i : Nat) (acc : List (String × BenchResult α))
      (p : String × BenchResult α), p ∈ benchLoop sqrtFn env nq i servers acc →
      p ∈ acc ∨ ∃ j, j < servers.length ∧ p.2 = benchEntry sqrtFn nq (env (i + j)) := by
  intro servers
  induction servers with
  | nil => intro i acc p h; exact Or.inl h
  | cons a rest ih =>
    intro i acc p h
    rcases ih (i + 1) _ p h with hacc | ⟨j, hj, hp⟩
    · rcases mem_dictSet _ hacc with h2 | h2
      · exact Or.inl h2
      · refine Or.inr ⟨0, by simp, ?_⟩
        rw [h2]
        simp
    · refine Or.inr ⟨j + 1, by simp; omega, ?_⟩
      rw [hp]
      have h2 : i + 1 + j = i + (j + 1) := by omega
      rw [h2]

/-- The main loop keeps the result keys distinct. -/
theorem keys_benchLoop_nodup {α : Type} [LinearOrderedField α] (sqrtFn : α → α)
    (env : Nat → PassOutcome α) (nq : Int) :
    ∀ (servers : List String) (i : Nat) (acc : List (String × BenchResult α)),
      (acc.map Prod.fst).Nodup →
      ((benchLoop sqrtFn env nq i servers acc).map Prod.fst).Nodup := by
  intro servers
  induction servers with
  | nil => intro i acc h; exact h
  | cons a rest ih =>
    intro i acc h
    exact ih (i + 1) _ (nodup_keys_dictSet _ _ _ h)

/-- The result keys of the main loop are the inherited keys plus the
processed servers. -/
theorem mem_keys_benchLoop {α : Type} [LinearOrderedField α] (sqrtFn : α → α)
    (env : Nat → PassOutcome α) (nq : Int) :
    ∀ (servers : List String) (i : Nat) (acc : List (String × BenchResult α))
      (s : String),
      s ∈ (benchLoop sqrtFn env nq i servers acc).map Prod.fst ↔
        s ∈ acc.map Prod.fst ∨ s ∈ servers := by
  intro servers
  induction servers with
  | nil => intro i acc s; simp [benchLoop]
  | cons a rest ih =>
    intro i acc s
    simp only [benchLoop]
    rw [ih, mem_keys_dictSet]
    simp [List.mem_cons]
    tauto

/-- `lastOcc` finds an index exactly for the members of the list. -/
theorem lastOcc_isSome_iff (s : String) :
    ∀ (l : List String), (lastOcc s l).isSome ↔ s ∈ l := by
  intro l
  induction l with
  | nil => simp [lastOcc]
  | cons a rest ih =>
    simp only [lastOcc, List.mem_cons]
    cases hl : lastOcc s rest with
    | some j =>
      rw [hl] at ih
      simp at ih
      simp [ih]
    | none =>
      rw [hl] at ih
      simp at ih
      by_cases ha : a = s
      · simp [ha]
      · have hsa : s ≠ a := fun h => ha h.symm
        simp [ha, hsa, ih]

/-- The result entry with no samples: only the name and the error flag are
stored (src/main.py lines 73-77). -/
theorem benchResultOf_nil {α : Type} [LinearOrderedField α] (sqrtFn : α → α)
    (nm : String) :
    benchResultOf sqrtFn nm [] =
      { times := none, mean := none, stdev := none,
        name := some nm, error := some true } := by
  simp [benchResultOf]

/-- The result entry with at least one sample: times, mean, and the square
root of the population variance are stored (src/main.py lines 60-72). -/
theorem benchResultOf_cons {α : Type} [LinearOrderedField α] (sqrtFn : α → α)
    (nm : String) (ts : List α) (h : ts ≠ []) :
    benchResultOf sqrtFn nm ts =
      { times := some ts,
        mean := some (ts.sum / (ts.length : α)),
        stdev := some (sqrtFn
          ((ts.map fun x => (x - ts.sum / (ts.length : α)) ^ 2).sum / (ts.length : α))),
        name := some nm, error := some false } := by
  have he : ts.isEmpty = false := by
    cases ts with
    | nil => exact absurd rfl h
    | cons x l => rfl
  simp [benchResultOf, he]

/-- The stored name field of a result entry. -/
theorem benchResultOf_name {α : Type} [LinearOrderedField α] (sqrtFn : α → α)
    (nm : String) (ts : List α) :
    (benchResultOf sqrtFn nm ts).name = some nm := by
  cases ts with
  | nil => simp [benchResultOf]
  | cons x l => simp [benchResultOf]

/-- The stored times field of a result entry. -/
theorem benchResultOf_times {α : Type} [LinearOrderedField α] (sqrtFn : α → α)
    (nm : String) (ts : List α) :
    (benchResultOf sqrtFn nm ts).times = if ts.isEmpty then none else some ts := by
  cases ts with
  | nil => simp [benchResultOf]
  | cons x l => simp [benchResultOf]

/-- The stored error field of a result entry is the emptiness of the
samples. -/
theorem benchResultOf_error {α : Type} [LinearOrderedField α] (sqrtFn : α → α)
    (nm : String) (ts : List α) :
    (benchResultOf sqrtFn nm ts).error = some ts.isEmpty := by
  cases ts with
  | nil => simp [benchResultOf]
  | cons x l => simp [benchResultOf]

/-- Every pass entry is a result built from some name and the query-loop
samples, the loop starting at a failure count of at most 1. -/
theorem benchEntry_eq {α : Type} [LinearOrderedField α] (sqrtFn : α → α)
    (nq : Int) (p : PassOutcome α) :
    ∃ nm fc0, fc0 ≤ 1 ∧
      benchEntry sqrtFn nq p =
        benchResultOf sqrtFn nm (queryLoop p.query nq.toNat 0 [] fc0).1 := by
  cases hr : p.reverse with
  | some n => exact ⟨n, 0, by omega, by simp [benchEntry, hr]⟩
  | none => exact ⟨"Unknown", 1, by omega, by simp [benchEntry, hr]⟩

/-- Every entry of the benchmark result is the pass entry of some pass
index within the server list. -/
theorem mem_benchmark {α : Type} [LinearOrderedField α] {sqrtFn : α → α}
    {env : Nat → PassOutcome α} {servers : List String} {domain : String}
    {nq : Int} {p : String × BenchResult α}
    (h : p ∈ benchmark_dns_servers sqrtFn env servers domain nq) :
    ∃ j, j < servers.length ∧ p.2 = benchEntry sqrtFn nq (env j) := by
  rcases mem_benchLoop sqrtFn env nq servers 0 [] p h with h2 | ⟨j, hj, hp⟩
  · simp at h2
  · exact ⟨j, hj, by simpa using hp⟩

/-- Claim C1: for every server whose result has a non-empty samples list,
the recorded mean equals the arithmetic average of the samples (sum divided
by count) and the recorded standard deviation equals the population
standard deviation: the square root of the mean of the squared deviations
from the mean, dividing by the sample count N (not N - 1); `Real.sqrt`
models `variance ** 0.5`. -/
theorem claim1_mean_stdev (env : Nat → PassOutcome ℝ) (servers : List String)
    (domain : String) (nq : Int) (s : String) (r : BenchResult ℝ) (ts : List ℝ)
    (hmem : (s, r) ∈ benchmark_dns_servers Real.sqrt env servers domain nq)
    (hts : r.times = some ts) (hne : ts ≠ []) :
    r.mean = some (ts.sum / (ts.length : ℝ)) ∧
    r.stdev = some (Real.sqrt
      ((ts.map fun x => (x - ts.sum / (ts.length : ℝ)) ^ 2).sum / (ts.length : ℝ))) ∧
    ∃ v, r.stdev = some v ∧ 0 ≤ v ∧
      v ^ 2 = (ts.map fun x => (x - ts.sum / (ts.length : ℝ)) ^ 2).sum / (ts.length : ℝ) := by
  obtain ⟨j, hj, hp⟩ := mem_benchmark hmem
  obtain ⟨nm, fc0, hfc0, hEq⟩ := benchEntry_eq Real.sqrt nq (env j)
  have hr : r = benchResultOf Real.sqrt nm (queryLoop (env j).query nq.toNat 0 [] fc0).1 := by
    rw [← hEq]; exact hp
  subst hr
  rw [benchResultOf_times] at hts
  cases hemp : (queryLoop (env j).query nq.toNat 0 [] fc0).1.isEmpty with
  | true =>
    rw [hemp] at hts
    simp at hts
  | false =>
    rw [hemp] at hts
    simp at hts
    subst hts
    have hcons := benchResultOf_cons Real.sqrt nm
      (queryLoop (env j).query nq.toNat 0 [] fc0).1 hne
    have hvar : 0 ≤ ((queryLoop (env j).query nq.toNat 0 [] fc0).1.map fun x =>
        (x - (queryLoop (env j).query nq.toNat 0 [] fc0).1.sum /
          ((queryLoop (env j).query nq.toNat 0 [] fc0).1.length : ℝ)) ^ 2).sum /
        ((queryLoop (env j).query nq.toNat 0 [] fc0).1.length : ℝ) := by
      apply div_nonneg
      · apply List.sum_nonneg
        intro x hx
        obtain ⟨y, hy, rfl⟩ := List.mem_map.mp hx
        exact sq_nonneg _
      · exact Nat.cast_nonneg _
    refine ⟨by rw [hcons], by rw [hcons], ⟨_, by rw [hcons], Real.sqrt_nonneg _,
      Real.sq_sqrt hvar⟩⟩

/-- Witness for C1: a one-query all-success pass over the reals. -/
theorem claim1_witness :
    (("8.8.8.8", demoEntryR) ∈
        benchmark_dns_servers Real.sqrt demoEnvOkR ["8.8.8.8"] "apple.com" 1) ∧
    demoEntryR.times = some [(1 : ℝ) * 1000] ∧ [(1 : ℝ) * 1000] ≠ ([] : List ℝ) ∧
    demoEntryR.mean = some (([(1 : ℝ) * 1000]).sum / ((([(1 : ℝ) * 1000]) : List ℝ).length : ℝ)) := by
  have hmem : ("8.8.8.8", demoEntryR) ∈
      benchmark_dns_servers Real.sqrt demoEnvOkR ["8.8.8.8"] "apple.com" 1 := by
    have h : benchmark_dns_servers Real.sqrt demoEnvOkR ["8.8.8.8"] "apple.com" 1 =
        [("8.8.8.8", demoEntryR)] := rfl
    rw [h]
    exact List.mem_singleton.mpr rfl
  have hts : demoEntryR.times = some [(1 : ℝ) * 1000] := by
    simp [demoEntryR, benchResultOf]
  have hne : [(1 : ℝ) * 1000] ≠ ([] : List ℝ) := by simp
  exact ⟨hmem, hts, hne,
    (claim1_mean_stdev demoEnvOkR ["8.8.8.8"] "apple.com" 1 "8.8.8.8" demoEntryR
      [(1 : ℝ) * 1000] hmem hts hne).1⟩

/-- Claim C2: a result's error flag is true exactly when it stores no
samples (a stored samples list is never empty); and a reverse-lookup
failure alone, with every forward query succeeding and at least one query
configured, yields a non-error result. -/
theorem claim2_failed_iff_empty {α : Type} [LinearOrderedField α] (sqrtFn : α → α) :
    (∀ (env : Nat → PassOutcome α) (servers : List String) (domain : String)
        (nq : Int) (s : String) (r : BenchResult α),
        (s, r) ∈ benchmark_dns_servers sqrtFn env servers domain nq →
        ((r.error = some true ↔ r.times = none) ∧
          ∀ ts, r.times = some ts → ts ≠ [] ∧ r.error = some false)) ∧
    (∀ (p : PassOutcome α) (nq : Int), p.reverse = none →
        (∀ i, (p.query i).isSome) → 1 ≤ nq →
        (benchEntry sqrtFn nq p).error = some false) := by
  constructor
  · intro env servers domain nq s r hmem
    obtain ⟨j, hj, hp⟩ := mem_benchmark hmem
    obtain ⟨nm, fc0, hfc0, hEq⟩ := benchEntry_eq sqrtFn nq (env j)
    have hr : r = benchResultOf sqrtFn nm (queryLoop (env j).query nq.toNat 0 [] fc0).1 := by
      rw [← hEq]; exact hp
    subst hr
    constructor
    · rw [benchResultOf_error, benchResultOf_times]
      cases hemp : (queryLoop (env j).query nq.toNat 0 [] fc0).1.isEmpty <;> simp [hemp]
    · intro ts hts
      rw [benchResultOf_times] at hts
      cases hemp : (queryLoop (env j).query nq.toNat 0 [] fc0).1.isEmpty with
      | true =>
        rw [hemp] at hts
        simp at hts
      | false =>
        rw [hemp] at hts
        simp at hts
        subst hts
        refine ⟨?_, by rw [benchResultOf_error, hemp]⟩
        intro hnil
        rw [hnil] at hemp
        simp at hemp
  · intro p nq hrev hq hnq
    have h1 := queryLoop_allSome p.query hq nq.toNat 0 [] 1 (by omega)
    have hne : (queryLoop p.query nq.toNat 0 [] 1).1 ≠ [] := by
      intro hnil
      have hlen := h1.2
      rw [hnil] at hlen
      simp at hlen
      omega
    have hemp : (queryLoop p.query nq.toNat 0 [] 1).1.isEmpty = false := by
      cases hc : (queryLoop p.query nq.toNat 0 [] 1).1 with
      | nil => exact absurd hc hne
      | cons x l => rfl
    simp only [benchEntry, hrev]
    rw [benchResultOf_error, hemp]

/-- Witness for C2: an all-failing pass, and a reverse-failure-only pass
with eight successful queries. -/
theorem claim2_witness :
    (("0.0.0.0", benchEntry sqrtQ 8 demoPassFail) ∈
        benchmark_dns_servers sqrtQ demoEnvFail ["0.0.0.0"] "apple.com" 8) ∧
    ((benchEntry sqrtQ 8 demoPassFail).error = some true ↔
      (benchEntry sqrtQ 8 demoPassFail).times = none) ∧
    demoPassRevFail.reverse = none ∧ (∀ i, (demoPassRevFail.query i).isSome) ∧
    (1 : Int) ≤ 8 ∧
    (benchEntry sqrtQ 8 demoPassRevFail).error = some false := by
  have hmem : ("0.0.0.0", benchEntry sqrtQ 8 demoPassFail) ∈
      benchmark_dns_servers sqrtQ demoEnvFail ["0.0.0.0"] "apple.com" 8 := by
    have h : benchmark_dns_servers sqrtQ demoEnvFail ["0.0.0.0"] "apple.com" 8 =
        [("0.0.0.0", benchEntry sqrtQ 8 demoPassFail)] := rfl
    rw [h]
    exact List.mem_singleton.mpr rfl
  exact ⟨hmem,
    ((claim2_failed_iff_empty sqrtQ).1 demoEnvFail ["0.0.0.0"] "apple.com" 8
      "0.0.0.0" _ hmem).1,
    rfl, fun i => rfl, by norm_num,
    (claim2_failed_iff_empty sqrtQ).2 demoPassRevFail 8 rfl (fun i => rfl) (by norm_num)⟩

/-- Claim C3: once the cumulative failure counter (reverse-lookup failure
plus forward failures) exceeds 2, the query loop has stopped issuing
attempts: the counter is exactly 3 (the aborting failure is not counted
further), the attempts issued are exactly the samples plus the `3 - fc0`
counted failures, fewer samples than `num_queries` were collected, and any
larger query budget yields the identical run. -/
theorem claim3_abort {α : Type} [LinearOrderedField α] (q : Nat → Option α)
    (nq : Int) (fc0 : Nat) (h0 : fc0 ≤ 1) (ts : List α) (fc att : Nat)
    (hrun : queryLoop q nq.toNat 0 [] fc0 = (ts, fc, att)) (habort : 2 < fc) :
    fc = 3 ∧ att = ts.length + (3 - fc0) ∧ ts.length < nq.toNat ∧
    ∀ m, nq.toNat ≤ m → queryLoop q m 0 [] fc0 = (ts, fc, att) := by
  obtain ⟨ts2, fc2, h1, h2, h3, h4, h5, h6⟩ :=
    queryLoop_go q nq.toNat 0 [] fc0 (by omega)
  rw [hrun] at h1 h2 h3
  simp at h1 h2 h3
  subst h1
  refine ⟨by omega, by omega, by omega, ?_⟩
  intro m hm
  rw [queryLoop_stable q nq.toNat m 0 [] fc0 (by omega) hm (by rw [hrun]; exact habort)]
  exact hrun

/-- Witness for C3: three straight failures with a budget of three. -/
theorem claim3_witness :
    (1 : Nat) ≤ 1 ∧
    queryLoop (fun _ => (none : Option ℚ)) (Int.toNat 3) 0 [] 1 = ([], 3, 2) ∧
    2 < 3 ∧
    ((3 : Nat) = 3 ∧ (2 : Nat) = ([] : List ℚ).length + (3 - 1) ∧
      ([] : List ℚ).length < (3 : Int).toNat ∧
      ∀ m, (3 : Int).toNat ≤ m →
        queryLoop (fun _ => (none : Option ℚ)) m 0 [] 1 = ([], 3, 2)) :=
  ⟨by norm_num, rfl, by norm_num,
    claim3_abort (fun _ => (none : Option ℚ)) 3 1 (by norm_num) [] 3 2 rfl (by norm_num)⟩

/-- Claim C4: the benchmark is a total function of the resolution outcomes —
failures are data consumed by the failure counter, never escaping errors —
and every input server receives a result entry whatever the outcome pattern,
so one server's total failure cannot deprive another server of its entry. -/
theorem claim4_no_escape {α : Type} [LinearOrderedField α] (sqrtFn : α → α)
    (env : Nat → PassOutcome α) (servers : List String) (domain : String)
    (nq : Int) (s : String) (hs : s ∈ servers) :
    ∃ r, dictGet (benchmark_dns_servers sqrtFn env servers domain nq) s = some r := by
  obtain ⟨j, hj⟩ := Option.isSome_iff_exists.mp ((lastOcc_isSome_iff s servers).mpr hs)
  refine ⟨benchEntry sqrtFn nq (env j), ?_⟩
  unfold benchmark_dns_servers
  rw [dictGet_benchLoop]
  simp [hj]

/-- Witness for C4: the first of two servers in an all-failing world still
has an entry. -/
theorem claim4_witness :
    "8.8.8.8" ∈ ["8.8.8.8", "0.0.0.0"] ∧
    ∃ r, dictGet (benchmark_dns_servers sqrtQ demoEnvFail ["8.8.8.8", "0.0.0.0"]
      "apple.com" 8) "8.8.8.8" = some r :=
  ⟨by simp,
    claim4_no_escape sqrtQ demoEnvFail ["8.8.8.8", "0.0.0.0"] "apple.com" 8
      "8.8.8.8" (by simp)⟩

/-- Claim C5: the result has exactly one entry per distinct input address —
its keys are distinct and are exactly the input servers — and the entry
stored for an address is the one written by the pass over the address's
last occurrence in the input list (last write wins). -/
theorem claim5_one_entry {α : Type} [LinearOrderedField α] (sqrtFn : α → α)
    (env : Nat → PassOutcome α) (servers : List String) (domain : String)
    (nq : Int) :
    ((benchmark_dns_servers sqrtFn env servers domain nq).map Prod.fst).Nodup ∧
    (∀ s, s ∈ (benchmark_dns_servers sqrtFn env servers domain nq).map Prod.fst ↔
        s ∈ servers) ∧
    (∀ s, dictGet (benchmark_dns_servers sqrtFn env servers domain nq) s =
        (lastOcc s servers).map fun j => benchEntry sqrtFn nq (env j)) := by
  refine ⟨keys_benchLoop_nodup sqrtFn env nq servers 0 [] (by simp), ?_, ?_⟩
  · intro s
    unfold benchmark_dns_servers
    rw [mem_keys_benchLoop]
    simp
  · intro s
    unfold benchmark_dns_servers
    rw [dictGet_benchLoop]
    cases hl : lastOcc s servers with
    | some j => simp
    | none => simp [dictGet]

/-- Claim C6: when reverse resolution fails, the entry's name is the
sentinel "Unknown" and the query loop starts with the failure counter
already at 1, so the reverse failure counts toward the abort threshold: two
further forward failures suffice to abort, whatever later queries would
do. -/
theorem claim6_reverse_failure {α : Type} [LinearOrderedField α] (sqrtFn : α → α)
    (nq : Int) (p : PassOutcome α) (hrev : p.reverse = none) :
    (benchEntry sqrtFn nq p).name = some "Unknown" ∧
    benchEntry sqrtFn nq p =
      benchResultOf sqrtFn "Unknown" (queryLoop p.query nq.toNat 0 [] 1).1 ∧
    (p.query 0 = none → p.query 1 = none → 2 ≤ nq →
      (benchEntry sqrtFn nq p).error = some true) := by
  have hEq : benchEntry sqrtFn nq p =
      benchResultOf sqrtFn "Unknown" (queryLoop p.query nq.toNat 0 [] 1).1 := by
    simp [benchEntry, hrev]
  refine ⟨by rw [hEq, benchResultOf_name], hEq, ?_⟩
  intro h0 h1 h2
  obtain ⟨k, hk⟩ : ∃ k, nq.toNat = k + 1 + 1 := ⟨nq.toNat - 2, by omega⟩
  rw [hEq, benchResultOf_error, hk]
  simp [queryLoop, h0, h1]

/-- Witness for C6: a fully failing pass with the default query budget. -/
theorem claim6_witness :
    demoPassFail.reverse = none ∧
    ((benchEntry sqrtQ 8 demoPassFail).name = some "Unknown" ∧
      benchEntry sqrtQ 8 demoPassFail =
        benchResultOf sqrtQ "Unknown" (queryLoop demoPassFail.query (8 : Int).toNat 0 [] 1).1 ∧
      (demoPassFail.query 0 = none → demoPassFail.query 1 = none → 2 ≤ (8 : Int) →
        (benchEntry sqrtQ 8 demoPassFail).error = some true)) :=
  ⟨rfl, claim6_reverse_failure sqrtQ 8 demoPassFail rfl⟩

/-- Claim C7: a stored samples list never exceeds the configured query
count, whatever combination of successes and failures occurred. -/
theorem claim7_samples_le {α : Type} [LinearOrderedField α] (sqrtFn : α → α)
    (env : Nat → PassOutcome α) (servers : List String) (domain : String)
    (nq : Int) (s : String) (r : BenchResult α) (ts : List α)
    (hmem : (s, r) ∈ benchmark_dns_servers sqrtFn env servers domain nq)
    (hts : r.times = some ts) :
    ts.length ≤ nq.toNat ∧ (0 ≤ nq → (ts.length : Int) ≤ nq) := by
  obtain ⟨j, hj, hp⟩ := mem_benchmark hmem
  obtain ⟨nm, fc0, hfc0, hEq⟩ := benchEntry_eq sqrtFn nq (env j)
  have hr : r = benchResultOf sqrtFn nm (queryLoop (env j).query nq.toNat 0 [] fc0).1 := by
    rw [← hEq]; exact hp
  subst hr
  rw [benchResultOf_times] at hts
  obtain ⟨ts2, fc2, h1, h2, h3, h4, h5, h6⟩ :=
    queryLoop_go (env j).query nq.toNat 0 [] fc0 (by omega)
  cases hemp : (queryLoop (env j).query nq.toNat 0 [] fc0).1.isEmpty with
  | true =>
    rw [hemp] at hts
    simp at hts
  | false =>
    rw [hemp] at hts
    simp at hts
    subst hts
    rw [h1]
    constructor
    · simp
      omega
    · intro hpos
      simp
      omega

/-- Witness for C7: two successful queries with a budget of two. -/
theorem claim7_witness :
    (("8.8.8.8", benchEntry sqrtQ 2 demoPassOk) ∈
        benchmark_dns_servers sqrtQ demoEnvOk ["8.8.8.8"] "apple.com" 2) ∧
    (benchEntry sqrtQ 2 demoPassOk).times = some [(1 : ℚ) * 1000, 1 * 1000] ∧
    ([(1 : ℚ) * 1000, 1 * 1000].length ≤ (2 : Int).toNat ∧
      (0 ≤ (2 : Int) → (([(1 : ℚ) * 1000, 1 * 1000].length : Int) ≤ 2))) := by
  have hmem : ("8.8.8.8", benchEntry sqrtQ 2 demoPassOk) ∈
      benchmark_dns_servers sqrtQ demoEnvOk ["8.8.8.8"] "apple.com" 2 := by
    have h : benchmark_dns_servers sqrtQ demoEnvOk ["8.8.8.8"] "apple.com" 2 =
        [("8.8.8.8", benchEntry sqrtQ 2 demoPassOk)] := rfl
    rw [h]
    exact List.mem_singleton.mpr rfl
  have hts : (benchEntry sqrtQ 2 demoPassOk).times = some [(1 : ℚ) * 1000, 1 * 1000] := rfl
  exact ⟨hmem, hts,
    claim7_samples_le sqrtQ demoEnvOk ["8.8.8.8"] "apple.com" 2 "8.8.8.8" _
      [(1 : ℚ) * 1000, 1 * 1000] hmem hts⟩

/-- The width-3 space padding of `fmt0` guarantees a minimum rendered
width of 3. -/
theorem padLeft_length (w : Nat) (s : String) : w ≤ (padLeft w s).length := by
  unfold padLeft
  by_cases h : s.length < w
  · rw [if_pos h, String.length_append]
    have hm : (String.mk (List.replicate (w - s.length) ' ')).length = w - s.length := by
      show (List.replicate (w - s.length) ' ').length = w - s.length
      exact List.length_replicate _ _
    omega
  · rw [if_neg h]
    omega

/-- Claim C8: the renderer emits exactly one row per result entry, in the
dict's iteration order; a row whose error flag is set or whose samples are
empty has every column wrapped in the red error style and the literal error
marker in the times column; otherwise the comma-joined times are each
formatted to width at least 3 with no decimal places, and mean and standard
deviation to one decimal place. -/
theorem claim8_render (results : List (String × BenchResult ℚ)) :
    display_results results = results.map (fun e =>
      if (e.2.times.getD []).isEmpty || e.2.error.getD false then
        [red_string e.1, red_string (e.2.name.getD "Unknown"),
          red_string "Error on query attempt",
          red_string (pyFloatStr (e.2.mean.getD 0)),
          red_string (pyFloatStr (e.2.stdev.getD 0))]
      else
        [e.1, e.2.name.getD "Unknown",
          String.intercalate "," ((e.2.times.getD []).map fmt0),
          fmt1 (e.2.mean.getD 0), fmt1 (e.2.stdev.getD 0)]) ∧
    (display_results results).length = results.length ∧
    ∀ x : ℚ, 3 ≤ (fmt0 x).length := by
  refine ⟨rfl, ?_, ?_⟩
  · unfold display_results
    exact List.length_map results _
  · intro x
    unfold fmt0
    exact padLeft_length 3 _

/-- Python renders the default float 0.0 as the string "0.0". -/
theorem pyFloatStr_zero : pyFloatStr 0 = "0.0" := by
  with_unfolding_all rfl

/-- Claim C9: an error-flagged entry stores only the name and the flag —
times, mean, and stdev are absent, not zero — and the renderer, reading the
missing fields through dict defaults, shows 0.0 for mean and standard
deviation in that all-red row. -/
theorem claim9_absent_fields (sqrtFn : ℚ → ℚ) (env : Nat → PassOutcome ℚ)
    (servers : List String) (domain : String) (nq : Int) (s : String)
    (r : BenchResult ℚ)
    (hmem : (s, r) ∈ benchmark_dns_servers sqrtFn env servers domain nq)
    (herr : r.error = some true) :
    r.times = none ∧ r.mean = none ∧ r.stdev = none ∧
    (∃ nm, r.name = some nm) ∧
    renderRow s r = [red_string s, red_string (r.name.getD "Unknown"),
      red_string "Error on query attempt", red_string "0.0", red_string "0.0"] := by
  obtain ⟨j, hj, hp⟩ := mem_benchmark hmem
  obtain ⟨nm, fc0, hfc0, hEq⟩ := benchEntry_eq sqrtFn nq (env j)
  have hr : r = benchResultOf sqrtFn nm (queryLoop (env j).query nq.toNat 0 [] fc0).1 := by
    rw [← hEq]; exact hp
  subst hr
  rw [benchResultOf_error] at herr
  have hemp : (queryLoop (env j).query nq.toNat 0 [] fc0).1.isEmpty = true := by
    simpa using herr
  have hnil : (queryLoop (env j).query nq.toNat 0 [] fc0).1 = [] := by
    cases hc : (queryLoop (env j).query nq.toNat 0 [] fc0).1 with
    | nil => rfl
    | cons x l => rw [hc] at hemp; simp at hemp
  rw [hnil, benchResultOf_nil]
  refine ⟨rfl, rfl, rfl, ⟨nm, rfl⟩, ?_⟩
  simp [renderRow, pyFloatStr_zero]

/-- Witness for C9: an all-failing pass rendered as an error row. -/
theorem claim9_witness :
    (("0.0.0.0", benchEntry sqrtQ 8 demoPassFail) ∈
        benchmark_dns_servers sqrtQ demoEnvFail ["0.0.0.0"] "apple.com" 8) ∧
    (benchEntry sqrtQ 8 demoPassFail).error = some true ∧
    (benchEntry sqrtQ 8 demoPassFail).times = none ∧
    renderRow "0.0.0.0" (benchEntry sqrtQ 8 demoPassFail) =
      [red_string "0.0.0.0",
        red_string ((benchEntry sqrtQ 8 demoPassFail).name.getD "Unknown"),
        red_string "Error on query attempt", red_string "0.0", red_string "0.0"] := by
  have hmem : ("0.0.0.0", benchEntry sqrtQ 8 demoPassFail) ∈
      benchmark_dns_servers sqrtQ demoEnvFail ["0.0.0.0"] "apple.com" 8 := by
    have h : benchmark_dns_servers sqrtQ demoEnvFail ["0.0.0.0"] "apple.com" 8 =
        [("0.0.0.0", benchEntry sqrtQ 8 demoPassFail)] := rfl
    rw [h]
    exact List.mem_singleton.mpr rfl
  have herr : (benchEntry sqrtQ 8 demoPassFail).error = some true := rfl
  have hall := claim9_absent_fields sqrtQ demoEnvFail ["0.0.0.0"] "apple.com" 8
    "0.0.0.0" _ hmem herr
  exact ⟨hmem, herr, hall.1, hall.2.2.2.2⟩

/-- Claim C10: with `num_queries ≤ 0` (outside the spec's positive-integer
precondition) the loop body never runs, so every server's samples list is
empty and its entry is error-flagged with no stored statistics, even in a
fully successful environment. -/
theorem claim10_nonpositive {α : Type} [LinearOrderedField α] (sqrtFn : α → α)
    (env : Nat → PassOutcome α) (servers : List String) (domain : String)
    (nq : Int) (hnq : nq ≤ 0) (s : String) (r : BenchResult α)
    (hmem : (s, r) ∈ benchmark_dns_servers sqrtFn env servers domain nq) :
    r.times = none ∧ r.mean = none ∧ r.stdev = none ∧ r.error = some true := by
  obtain ⟨j, hj, hp⟩ := mem_benchmark hmem
  obtain ⟨nm, fc0, hfc0, hEq⟩ := benchEntry_eq sqrtFn nq (env j)
  have hr : r = benchResultOf sqrtFn nm (queryLoop (env j).query nq.toNat 0 [] fc0).1 := by
    rw [← hEq]; exact hp
  subst hr
  have h0 : nq.toNat = 0 := by omega
  have hloop : (queryLoop (env j).query nq.toNat 0 [] fc0).1 = ([] : List α) := by
    rw [h0]
    rfl
  rw [hloop, benchResultOf_nil]
  exact ⟨rfl, rfl, rfl, rfl⟩

/-- Witness for C10: a negative query count in a fully successful world. -/
theorem claim10_witness :
    (-1 : Int) ≤ 0 ∧
    (("8.8.8.8", benchEntry sqrtQ (-1) demoPassOk) ∈
        benchmark_dns_servers sqrtQ demoEnvOk ["8.8.8.8"] "apple.com" (-1)) ∧
    ((benchEntry sqrtQ (-1) demoPassOk).times = none ∧
      (benchEntry sqrtQ (-1) demoPassOk).mean = none ∧
      (benchEntry sqrtQ (-1) demoPassOk).stdev = none ∧
      (benchEntry sqrtQ (-1) demoPassOk).error = some true) := by
  have hmem : ("8.8.8.8", benchEntry sqrtQ (-1) demoPassOk) ∈
      benchmark_dns_servers sqrtQ demoEnvOk ["8.8.8.8"] "apple.com" (-1) := by
    have h : benchmark_dns_servers sqrtQ demoEnvOk ["8.8.8.8"] "apple.com" (-1) =
        [("8.8.8.8", benchEntry sqrtQ (-1) demoPassOk)] := rfl
    rw [h]
    exact List.mem_singleton.mpr rfl
  exact ⟨by norm_num, hmem,
    claim10_nonpositive sqrtQ demoEnvOk ["8.8.8.8"] "apple.com" (-1) (by norm_num)
      "8.8.8.8" _ hmem⟩
